import Mathlib

/-!
Verification of the wiretap core: static mock matcher, validator adapter,
report streamer, and upstream transport cookie handling.

The definitions below are shallow embeddings of the Go sources:
the staticMock matcher file, the daemon validate.go, the daemon
stream_output.go, and the daemon transport file.  Helper functions that
live in packages outside the provided sources (shared.IsSubset,
shared.StringCompare, BuildHttpTransaction) are modelled from the
specification and marked as such in their doc comments.
-/

set_option autoImplicit false

namespace Wiretap

/-- JsonValue models a Go interface value decoded from JSON: the dynamic
types string, number, bool, nil, array and string-keyed object that
appear in parsed mock definitions and in parsed request bodies. -/
inductive JsonValue where
  | str (s : String)
  | num (n : Int)
  | boolean (b : Bool)
  | null
  | arr (elems : List JsonValue)
  | obj (fields : List (String × JsonValue))

mutual

/-- Modelled from the spec: shared.IsSubset is not among the provided
sources.  Spec 4.1: objects require every key of the first argument to
exist in the second with the corresponding values related; arrays require
every element of the first argument to admit some element of the second
related to it; scalars compare by equality; differing types yield false. -/
def isSubset : JsonValue → JsonValue → Bool
  | JsonValue.str a, JsonValue.str b => a == b
  | JsonValue.num a, JsonValue.num b => a == b
  | JsonValue.boolean a, JsonValue.boolean b => a == b
  | JsonValue.null, JsonValue.null => true
  | JsonValue.arr s, JsonValue.arr f => subsetArr s f
  | JsonValue.obj s, JsonValue.obj f => subsetObj s f
  | _, _ => false
termination_by a b => sizeOf a + sizeOf b
decreasing_by all_goals (simp_wf; try omega)

/-- Array clause of the subset comparator: each element of the first list
must have at least one element of the second list related to it. -/
def subsetArr : List JsonValue → List JsonValue → Bool
  | [], _ => true
  | x :: xs, f => hasRelated f x && subsetArr xs f
termination_by s f => sizeOf s + sizeOf f
decreasing_by all_goals (simp_wf; try omega)

/-- Scan of the containing array for an element related to the given one. -/
def hasRelated : List JsonValue → JsonValue → Bool
  | [], _ => false
  | y :: ys, x => isSubset y x || hasRelated ys x
termination_by l x => sizeOf l + sizeOf x
decreasing_by all_goals (simp_wf; try omega)

/-- Object clause of the subset comparator: every field of the first
object must be matched by the corresponding field of the second. -/
def subsetObj : List (String × JsonValue) → List (String × JsonValue) → Bool
  | [], _ => true
  | (k, v) :: rest, f => fieldSubset k v f && subsetObj rest f
termination_by s f => sizeOf s + sizeOf f
decreasing_by all_goals (simp_wf; try omega)

/-- Lookup of a key in the containing object combined with the value
comparison; a missing key yields false. -/
def fieldSubset : String → JsonValue → List (String × JsonValue) → Bool
  | _, _, [] => false
  | k, v, (k2, fv) :: rest => if k == k2 then isSubset v fv else fieldSubset k v rest
termination_by _ v f => sizeOf v + sizeOf f
decreasing_by all_goals (simp_wf; try omega)

end

/-- Lower-casing of one ASCII character, the primitive of the
case-insensitive comparison. -/
def lowerChar (c : Char) : Char :=
  if 'A' ≤ c && c ≤ 'Z' then Char.ofNat (c.toNat + 32) else c

/-- Modelled from the spec: shared.StringCompare is not among the provided
sources.  Spec 4.1: ASCII case-insensitive equality of two strings. -/
def stringCompare (a b : String) : Bool :=
  a.data.map lowerChar == b.data.map lowerChar

/-- Request models the parts of an incoming http.Request that the static
mock matcher inspects.  The body field holds the bytes a Read of the
request body would currently return; bodyJson records the result of JSON
decoding of those bytes when they are non-empty (none meaning the decode
fails). -/
structure Request where
  host : String
  method : String
  urlPath : String
  headers : List (String × List String)
  queryParams : List (String × List String)
  body : String
  bodyJson : Option JsonValue

/-- Raw map indexing of a Go header map: the value slice for the key, or
the empty slice when the key is absent. -/
def headerIndex (hs : List (String × List String)) (k : String) : List String :=
  (hs.lookup k).getD []

/-- Header.Get of Go: the first value stored for the key, or the empty
string when there is none. -/
def headerGet (hs : List (String × List String)) (k : String) : String :=
  match headerIndex hs k with
  | [] => ""
  | v :: _ => v

/-- transStrArrToInterfaceArr from the staticMock source: wraps each
string of a header value slice as a dynamic value. -/
def transStrArrToInterfaceArr (strArr : List String) : List JsonValue :=
  strArr.map JsonValue.str

/-- One step of the compareHeaders loop: a string mock value requires the
singleton array to be a subset of the incoming values, an array mock
value requires it to be a subset of the incoming values, and any other
dynamic type leaves the accumulator untouched (the type switch of the
source has no default case). -/
def compareHeaderStep (incoming : List (String × List String))
    (found : Bool) (kv : String × JsonValue) : Bool :=
  match kv.2 with
  | JsonValue.str s =>
      found && isSubset (JsonValue.arr [JsonValue.str s])
        (JsonValue.arr (transStrArrToInterfaceArr (headerIndex incoming kv.1)))
  | JsonValue.arr xs =>
      found && isSubset (JsonValue.arr xs)
        (JsonValue.arr (transStrArrToInterfaceArr (headerIndex incoming kv.1)))
  | _ => found

/-- Constraint one mock header entry imposes on the incoming values: the
subset requirement for string and array values, and no constraint at all
for values of any other dynamic type. -/
def headerClause (incoming : List (String × List String))
    (kv : String × JsonValue) : Bool :=
  match kv.2 with
  | JsonValue.str s =>
      isSubset (JsonValue.arr [JsonValue.str s])
        (JsonValue.arr (transStrArrToInterfaceArr (headerIndex incoming kv.1)))
  | JsonValue.arr xs =>
      isSubset (JsonValue.arr xs)
        (JsonValue.arr (transStrArrToInterfaceArr (headerIndex incoming kv.1)))
  | _ => true

/-- compareHeaders from the staticMock source: folds the mock header map
through compareHeaderStep starting from true. -/
def compareHeaders (mockHeaders : List (String × JsonValue))
    (incoming : List (String × List String)) : Bool :=
  mockHeaders.foldl (compareHeaderStep incoming) true

/-- compareQueryParams from the staticMock source: identical loop over
the parsed query values of the incoming request. -/
def compareQueryParams (mockQueryParams : List (String × JsonValue))
    (incomingQueries : List (String × List String)) : Bool :=
  mockQueryParams.foldl (compareHeaderStep incomingQueries) true

/-- getBodyFromHttpRequest from the staticMock source: reads the body
bytes, restores the body so it can be read again, returns the nil
interface for an empty body, decodes JSON otherwise, and panics (none)
when decoding fails. -/
def getBodyFromHttpRequest (request : Request) : Option (Option JsonValue × Request) :=
  let bodyBytes := request.body
  let restored := request
  if bodyBytes = "" then some (none, restored)
  else
    match request.bodyJson with
    | none => none
    | some v => some (some v, restored)

/-- compareJsonBody from the staticMock source: requires the JSON content
type on the incoming request, then tests the mock body for subsethood
against the decoded incoming body; a nil decoded body matches nothing. -/
def compareJsonBody (mockBody : JsonValue) (request : Request) : Option (Bool × Request) :=
  if headerGet request.headers "Content-Type" ≠ "application/json" then
    some (false, request)
  else
    match getBodyFromHttpRequest request with
    | none => none
    | some (incomingBody, request2) =>
        match incomingBody with
        | none => some (false, request2)
        | some v => some (isSubset mockBody v, request2)

/-- compareBody from the staticMock source.  A string mock body reads the
incoming body bytes directly (consuming them without restoring) and
requires byte equality; an object or array mock body goes through
compareJsonBody; any other dynamic type fails the match.  The returned
request carries the body state left behind by the comparison. -/
def compareBody (mockBody : JsonValue) (incoming : Request) : Option (Bool × Request) :=
  match mockBody with
  | JsonValue.str mb =>
      let incomingBodyBytes := incoming.body
      let consumed : Request := { incoming with body := "" }
      some (incomingBodyBytes == mb, consumed)
  | JsonValue.obj _ => compareJsonBody mockBody incoming
  | JsonValue.arr _ => compareJsonBody mockBody incoming
  | _ => some (false, incoming)

/-- StaticMockDefinitionRequest models the selector half of a mock
definition: optional host and path, required method, optional header and
query maps (a nil map pointer is none) and an optional dynamic body. -/
structure StaticMockDefinitionRequest where
  host : String
  method : String
  urlPath : String
  header : Option (List (String × JsonValue))
  queryParams : Option (List (String × JsonValue))
  body : Option JsonValue

/-- Header gate of isRequestMatch: fails when a header map is present
and compareHeaders rejects it; an absent map never fails. -/
def headerGateFails (mock : StaticMockDefinitionRequest) (incoming : Request) : Bool :=
  match mock.header with
  | some hm => !compareHeaders hm incoming.headers
  | none => false

/-- Query gate of isRequestMatch: fails when a query map is present and
compareQueryParams rejects it; an absent map never fails. -/
def queryGateFails (mock : StaticMockDefinitionRequest) (incoming : Request) : Bool :=
  match mock.queryParams with
  | some qm => !compareQueryParams qm incoming.queryParams
  | none => false

/-- Body gate of isRequestMatch: an absent mock body matches; a present
one defers to compareBody, mapping a failed comparison to some false and
a panic to none. -/
def bodyGate (mock : StaticMockDefinitionRequest) (incoming : Request) : Option Bool :=
  match mock.body with
  | none => some true
  | some b =>
      match compareBody b incoming with
      | none => none
      | some (ok, _) => if !ok then some false else some true

/-- isRequestMatch from the staticMock source: the early-return chain
over host, method, path, headers, query parameters and body.  The value
none models a panic escaping from the body comparison. -/
def isRequestMatch (mock : StaticMockDefinitionRequest) (incoming : Request) :
    Option Bool :=
  if mock.host != "" && !stringCompare mock.host incoming.host then some false
  else if incoming.method != mock.method then some false
  else if mock.urlPath != "" && !stringCompare mock.urlPath incoming.urlPath then some false
  else if headerGateFails mock incoming then some false
  else if queryGateFails mock incoming then some false
  else bodyGate mock incoming

/-- ValidationError models the external validator error record; the core
inspects only the message and the IsPathMissingError predicate. -/
structure ValidationError where
  message : String
  pathMissing : Bool
deriving DecidableEq

/-- Broadcast event emitted at the end of ValidateResponse: either a
plain response broadcast or a response-validation-errors broadcast
carrying the cleaned batch. -/
inductive ResponseBroadcast where
  | response
  | responseValidationErrors (errs : List ValidationError)
deriving DecidableEq

/-- Observable outcome of one ValidateResponse call: the validation batch
stored on the transaction, the batches pushed onto the streamer channel,
the broadcast emitted, and the error list returned to the caller. -/
structure ValidateResponseResult where
  storedValidation : Option (List ValidationError)
  streamedBatches : List (List ValidationError)
  broadcast : ResponseBroadcast
  returned : List ValidationError
deriving DecidableEq

/-- Cleaning loop of ValidateResponse: appends, in order, every
validation error whose IsPathMissingError predicate is false. -/
def cleanResponseErrors (validationErrors : List ValidationError) :
    List ValidationError :=
  validationErrors.foldl
    (fun acc e => if !e.pathMissing then acc ++ [e] else acc) []

/-- ValidateResponse from validate.go on the non-panicking path, given
the error list produced by the external validator: path-missing errors
are dropped, the cleaned batch (when non-empty) is recorded on the
transaction, pushed onto the streamer channel and broadcast, and the full
unfiltered list is returned. -/
def validateResponseRecord (validationErrors : List ValidationError) :
    ValidateResponseResult :=
  let cleanedErrors := cleanResponseErrors validationErrors
  { storedValidation := if cleanedErrors.length > 0 then some cleanedErrors else none
    streamedBatches := if cleanedErrors.length > 0 then [cleanedErrors] else []
    broadcast := if cleanedErrors.length > 0 then
        ResponseBroadcast.responseValidationErrors cleanedErrors
      else ResponseBroadcast.response
    returned := validationErrors }

/-- PanicValue models the dynamic value carried by a Go panic: either a
string or a value of any other dynamic type. -/
inductive PanicValue where
  | strVal (s : String)
  | nonStrVal (description : String)
deriving DecidableEq

/-- Outcome of running the body of a validator adapter operation: the
external validator either returns an error list or panics. -/
inductive ValidatorOutcome where
  | normal (errs : List ValidationError)
  | panicked (v : PanicValue)

/-- Observable result of a call into a panic-guarded operation: either a
normal return with an error list, or a panic propagating to the caller. -/
inductive CallResult where
  | returned (errs : List ValidationError)
  | panicked (v : PanicValue)
deriving DecidableEq

/-- Deferred recovery block of ValidateRequest and ValidateResponse: the
recovered value is put through the type assertion to string.  A string
panic value becomes a single ValidationError with the prefixed message; a
panic value of any other dynamic type makes the type assertion itself
panic, so the call still panics. -/
def recoverToError (messageStart : String) (v : PanicValue) : CallResult :=
  match v with
  | PanicValue.strVal s =>
      CallResult.returned [{ message := messageStart ++ s, pathMissing := false }]
  | PanicValue.nonStrVal d =>
      CallResult.panicked (PanicValue.nonStrVal ("interface conversion: " ++ d))

/-- ValidateRequest from validate.go seen through its panic guard: a
normal validator outcome returns the copied error list, a panic goes
through the deferred recovery. -/
def validateRequestCall (outcome : ValidatorOutcome) : CallResult :=
  match outcome with
  | ValidatorOutcome.normal errs => CallResult.returned errs
  | ValidatorOutcome.panicked v => recoverToError "Error validating request: " v

/-- ValidateResponse from validate.go seen through its panic guard. -/
def validateResponseCall (outcome : ValidatorOutcome) : CallResult :=
  match outcome with
  | ValidatorOutcome.normal errs =>
      CallResult.returned (validateResponseRecord errs).returned
  | ValidatorOutcome.panicked v => recoverToError "Error validating response: " v

/-- ModelRequest models the ranch model.Request value handled by the
daemon, reduced to the request id used as the store key. -/
structure ModelRequest where
  id : String
deriving DecidableEq

/-- Modelled from the spec: BuildHttpTransaction is not among the
provided sources.  Spec section 3: the transaction is the aggregated
record carrying the original request, the possibly-rewritten request and
the request-validation errors. -/
structure HttpTransaction where
  originalRequest : ModelRequest
  newRequest : String
  requestValidation : Option (List ValidationError)
deriving DecidableEq

/-- Value handed to the transaction store: either a raw model request or
a built transaction record. -/
inductive StoredValue where
  | modelReq (r : ModelRequest)
  | httpTxn (t : HttpTransaction)
deriving DecidableEq

/-- Observable outcome of one ValidateRequest call on the non-panicking
path: the key-value pair handed to the transaction store, the transaction
that was built, the batches pushed to the streamer, and the returned
error list. -/
structure ValidateRequestResult where
  storePut : String × StoredValue
  builtTransaction : HttpTransaction
  streamedBatches : List (List ValidationError)
  returned : List ValidationError
deriving DecidableEq

/-- ValidateRequest from validate.go on the non-panicking path: the
cleaned list is a verbatim copy of the validator errors, a transaction is
built from the original and rewritten requests, and the transaction store
receives the model request itself under the request id key (the source
passes modelRequest, not the built transaction, to Put). -/
def validateRequestRecord (modelRequest : ModelRequest) (httpRequest : String)
    (validationErrors : List ValidationError) : ValidateRequestResult :=
  let cleanedErrors := validationErrors.foldl (fun acc e => acc ++ [e]) []
  let transaction : HttpTransaction :=
    { originalRequest := modelRequest
      newRequest := httpRequest
      requestValidation := if cleanedErrors.length > 0 then some cleanedErrors else none }
  { storePut := (modelRequest.id, StoredValue.modelReq modelRequest)
    builtTransaction := transaction
    streamedBatches := if cleanedErrors.length > 0 then [cleanedErrors] else []
    returned := cleanedErrors }

/-- Response models the slice of an http.Response the transport wrapper
inspects: the value list of its Set-Cookie header (empty meaning the
header is absent). -/
structure Response where
  setCookie : List String
deriving DecidableEq

/-- Header.Get for the Set-Cookie values of a response: first value or
the empty string. -/
def respCookieGet (r : Response) : String :=
  match r.setCookie with
  | [] => ""
  | v :: _ => v

/-- Capture loop of wiretapTransport.RoundTrip across the round-trip
chain: for each response of the chain, a non-empty first Set-Cookie value
is appended to the capture list. -/
def capturedCookieHeaders (chain : List Response) : List String :=
  chain.foldl (fun acc r =>
    let cookie := respCookieGet r
    if cookie != "" then acc ++ [cookie] else acc) []

/-- Cookie post-processing at the end of callAPI: when the capture list
is non-empty and Header.Get of Set-Cookie on the final response returns
the empty string, the header is set to the first captured cookie. -/
def callAPICookieFix (captured : List String) (resp : Response) : Response :=
  match captured with
  | [] => resp
  | c0 :: _ =>
      if respCookieGet resp == "" then { resp with setCookie := [c0] } else resp

/-- Separator written between serialized violations and between batches:
a comma followed by a newline. -/
def sepChars : List Char := [',', '\n']

/-- Comma-newline join of a batch of serialized violations, as produced
by the write loop of listenForValidationErrors (a separator before every
element except the first). -/
def sepJoin : List (List Char) → List Char
  | [] => []
  | v :: vs =>
      match vs with
      | [] => v
      | _ :: _ => v ++ sepChars ++ sepJoin vs

/-- One batch append of listenForValidationErrors, acting on the file
content: stat the size, truncate the final byte, write the comma-newline
separator when the stat size exceeded two, write the serialized
violations of the batch comma-newline separated, and write the closing
bracket. -/
def appendBatch (file : List Char) (batch : List (List Char)) : List Char :=
  let size := file.length
  let truncated := file.dropLast
  let withSep := if 2 < size then truncated ++ sepChars else truncated
  withSep ++ sepJoin batch ++ [']']

/-- Content of a freshly created report file: the two bytes of an empty
JSON array, written by openReportFile when the opened file has size
zero. -/
def newReportFileContent : List Char := ['[', ']']

/-- File content after the streamer has consumed a sequence of violation
batches, starting from a freshly created report file. -/
def processBatches (batches : List (List (List Char))) : List Char :=
  batches.foldl appendBatch newReportFileContent

/-- Well-formed JSON array shape over a list of serialized violations: an
opening bracket, the comma-newline joined elements, a closing bracket. -/
def jsonArrayRender (violations : List (List Char)) : List Char :=
  '[' :: (sepJoin violations ++ [']'])

/-- Error value of the model of file operations. -/
structure FileError where
  message : String
deriving DecidableEq

/-- Outcome of openReportFile reduced to its observable parts: an error,
or a handle together with the initial content of the file. -/
inductive OpenReportOutcome where
  | failed (e : FileError)
  | opened (content : List Char)
deriving DecidableEq

/-- Tail of openReportFile after the OpenFile call, translated from the
source: when opening failed the error is returned; otherwise, for a
zero-size file the initial empty array is written, but the subsequent
check inspects the error of the OpenFile call (already known nil) rather
than the error of the write, so a failed write is never reported.  The
writtenOnFailure argument is the partial content a failed WriteString
left behind. -/
def openReportFileFinish (openErr : Option FileError) (existing : List Char)
    (writeErr : Option FileError) (writtenOnFailure : List Char) :
    OpenReportOutcome :=
  match openErr with
  | some e => OpenReportOutcome.failed e
  | none =>
      if existing.length = 0 then
        let written :=
          match writeErr with
          | none => newReportFileContent
          | some _ => writtenOnFailure
        if openErr.isSome then
          OpenReportOutcome.failed (writeErr.getD { message := "" })
        else OpenReportOutcome.opened written
      else OpenReportOutcome.opened existing

/-- minimumTimeUnit from stream_output.go: the smallest unit of time for
rollover. -/
inductive minimumTimeUnit where
  | SECOND
  | MINUTE
  | HOUR
  | DAY
  | MONTH
  | YEAR
deriving DecidableEq

/-- Numeric rank of a time unit following the iota order of the source:
lower means a finer, smaller unit. -/
def minimumTimeUnit.rank : minimumTimeUnit → Nat
  | minimumTimeUnit.SECOND => 0
  | minimumTimeUnit.MINUTE => 1
  | minimumTimeUnit.HOUR => 2
  | minimumTimeUnit.DAY => 3
  | minimumTimeUnit.MONTH => 4
  | minimumTimeUnit.YEAR => 5

/-- timeUnitMapping from stream_output.go: a placeholder token, its Go
time format replacement, and the unit it denotes. -/
structure timeUnitMapping where
  input : List Char
  goFormat : List Char
  unit : minimumTimeUnit
deriving DecidableEq

/-- timeUnitMappings from stream_output.go, ordered from largest to
smallest unit. -/
def timeUnitMappings : List timeUnitMapping :=
  [ { input := "YYYY".toList, goFormat := "2006".toList, unit := minimumTimeUnit.YEAR }
  , { input := "YY".toList, goFormat := "06".toList, unit := minimumTimeUnit.YEAR }
  , { input := "MM".toList, goFormat := "01".toList, unit := minimumTimeUnit.MONTH }
  , { input := "DD".toList, goFormat := "02".toList, unit := minimumTimeUnit.DAY }
  , { input := "HH".toList, goFormat := "15".toList, unit := minimumTimeUnit.HOUR }
  , { input := "mm".toList, goFormat := "04".toList, unit := minimumTimeUnit.MINUTE }
  , { input := "SS".toList, goFormat := "05".toList, unit := minimumTimeUnit.SECOND } ]

/-- strings.Contains of Go over character lists: the second list occurs
as a contiguous run of the first. -/
def listContains (s sub : List Char) : Bool :=
  match s with
  | [] => sub.isEmpty
  | _ :: t => sub.isPrefixOf s || listContains t sub

/-- strings.ReplaceAll of Go over character lists for a non-empty
pattern: non-overlapping occurrences are replaced left to right.  The
tokens this development replaces are all non-empty, so the empty-pattern
branch only serves termination. -/
def replaceAll (pat rep : List Char) (s : List Char) : List Char :=
  match s with
  | [] => []
  | c :: rest =>
      if 0 < pat.length && pat.isPrefixOf (c :: rest) then
        rep ++ replaceAll pat rep (rest.drop (pat.length - 1))
      else
        c :: replaceAll pat rep rest
termination_by s.length
decreasing_by
  all_goals simp_wf
  all_goals omega

/-- Loop of convertPatternToGoTimeFormat from stream_output.go: the
formatted string and the smallest unit are threaded through the mapping
list; a mapping whose token occurs in the current formatted string
replaces all its occurrences and overwrites the unit. -/
def scanFold : List timeUnitMapping → List Char → minimumTimeUnit →
    List Char × minimumTimeUnit
  | [], formatted, unit => (formatted, unit)
  | m :: ms, formatted, unit =>
      if listContains formatted m.input then
        scanFold ms (replaceAll m.input m.goFormat formatted) m.unit
      else
        scanFold ms formatted unit

/-- Mappings matched during the scan, in scan order, together with the
progressive replacement the loop performs. -/
def scanMatchesAux : List timeUnitMapping → List Char → List timeUnitMapping
  | [], _ => []
  | m :: ms, formatted =>
      if listContains formatted m.input then
        m :: scanMatchesAux ms (replaceAll m.input m.goFormat formatted)
      else
        scanMatchesAux ms formatted

/-- Mappings of timeUnitMappings matched while scanning the given
pattern. -/
def scanMatches (pattern : List Char) : List timeUnitMapping :=
  scanMatchesAux timeUnitMappings pattern

/-- convertPatternToGoTimeFormat from stream_output.go: runs the scan
starting from the YEAR unit and fails when no replacement changed the
pattern. -/
def convertPatternToGoTimeFormat (pattern : List Char) :
    Except String (List Char × minimumTimeUnit) :=
  let r := scanFold timeUnitMappings pattern minimumTimeUnit.YEAR
  if r.1 = pattern then
    Except.error "no valid time unit placeholders found in pattern"
  else
    Except.ok r

/-- CivilDate is a calendar date of the proleptic Gregorian calendar in a
fixed location. -/
structure CivilDate where
  year : Int
  month : Nat
  day : Nat
deriving DecidableEq

/-- CivilTime is a wall-clock instant with whole seconds.  The model of
Go time used here assumes a location with a fixed whole-hour UTC offset
and no daylight saving transitions, under which truncation to a unit
zeroes the finer civil fields and adding a duration is civil-calendar
addition. -/
structure CivilTime where
  date : CivilDate
  hour : Nat
  minute : Nat
  second : Nat
deriving DecidableEq

/-- Gregorian leap year rule. -/
def isLeapYear (y : Int) : Bool :=
  (y % 4 == 0 && y % 100 != 0) || y % 400 == 0

/-- Length of a month of the Gregorian calendar. -/
def daysInMonth (y : Int) (m : Nat) : Nat :=
  if m = 2 then (if isLeapYear y then 29 else 28)
  else if m = 4 || m = 6 || m = 9 || m = 11 then 30
  else 31

/-- Validity of a calendar date. -/
def validDate (d : CivilDate) : Bool :=
  1 ≤ d.month && d.month ≤ 12 && 1 ≤ d.day && d.day ≤ daysInMonth d.year d.month

/-- Validity of a wall-clock instant. -/
def validCivil (t : CivilTime) : Bool :=
  validDate t.date && t.hour ≤ 23 && t.minute ≤ 59 && t.second ≤ 59

/-- Calendar successor of a date. -/
def succDay (d : CivilDate) : CivilDate :=
  if d.day < daysInMonth d.year d.month then
    { d with day := d.day + 1 }
  else if d.month < 12 then
    { year := d.year, month := d.month + 1, day := 1 }
  else
    { year := d.year + 1, month := 1, day := 1 }

/-- Iterated calendar successor. -/
def addDays (d : CivilDate) : Nat → CivilDate
  | 0 => d
  | n + 1 => addDays (succDay d) n

/-- Addition of a whole number of seconds to a civil instant: the seconds
of the day are accumulated, whole days carry into the calendar date, and
the remainder is decomposed back into hour, minute and second.  Under the
fixed-offset assumption this is Go time.Time.Add restricted to
non-negative whole-second durations. -/
def addSeconds (t : CivilTime) (n : Nat) : CivilTime :=
  let total := t.hour * 3600 + t.minute * 60 + t.second + n
  let newDate := addDays t.date (total / 86400)
  { date := newDate
    hour := total % 86400 / 3600
    minute := total % 86400 % 3600 / 60
    second := total % 86400 % 60 }

/-- Go time.Time.Truncate to one second on the whole-second model: the
identity. -/
def truncSecond (t : CivilTime) : CivilTime := t

/-- Go time.Time.Truncate to one minute under a fixed offset that is a
whole number of minutes: the seconds are zeroed. -/
def truncMinute (t : CivilTime) : CivilTime := { t with second := 0 }

/-- Go time.Time.Truncate to one hour under a fixed whole-hour offset:
minutes and seconds are zeroed. -/
def truncHour (t : CivilTime) : CivilTime := { t with minute := 0, second := 0 }

/-- calculateNextRollover from stream_output.go on the civil model: each
unit truncates and adds per the source (the DAY case rebuilds the start
of the day and adds twenty-four hours; the MONTH and YEAR cases build the
first of the following month or year directly). -/
def calculateNextRollover (smallestUnit : minimumTimeUnit) (now : CivilTime) :
    CivilTime :=
  match smallestUnit with
  | minimumTimeUnit.SECOND => addSeconds (truncSecond now) 1
  | minimumTimeUnit.MINUTE => addSeconds (truncMinute now) 60
  | minimumTimeUnit.HOUR => addSeconds (truncHour now) 3600
  | minimumTimeUnit.DAY =>
      addSeconds { date := now.date, hour := 0, minute := 0, second := 0 } 86400
  | minimumTimeUnit.MONTH =>
      if now.date.month = 12 then
        { date := { year := now.date.year + 1, month := 1, day := 1 },
          hour := 0, minute := 0, second := 0 }
      else
        { date := { year := now.date.year, month := now.date.month + 1, day := 1 },
          hour := 0, minute := 0, second := 0 }
  | minimumTimeUnit.YEAR =>
      { date := { year := now.date.year + 1, month := 1, day := 1 },
        hour := 0, minute := 0, second := 0 }

/-- Start of the next second after the given instant: the claimed
cadence instant for the SS token, written by explicit carries. -/
def nextSecondBoundary (t : CivilTime) : CivilTime :=
  if t.second < 59 then { t with second := t.second + 1 }
  else if t.minute < 59 then { t with minute := t.minute + 1, second := 0 }
  else if t.hour < 23 then { t with hour := t.hour + 1, minute := 0, second := 0 }
  else { date := succDay t.date, hour := 0, minute := 0, second := 0 }

/-- Start of the next minute after the given instant. -/
def nextMinuteBoundary (t : CivilTime) : CivilTime :=
  if t.minute < 59 then { t with minute := t.minute + 1, second := 0 }
  else if t.hour < 23 then { t with hour := t.hour + 1, minute := 0, second := 0 }
  else { date := succDay t.date, hour := 0, minute := 0, second := 0 }

/-- Start of the next hour after the given instant. -/
def nextHourBoundary (t : CivilTime) : CivilTime :=
  if t.hour < 23 then { t with hour := t.hour + 1, minute := 0, second := 0 }
  else { date := succDay t.date, hour := 0, minute := 0, second := 0 }

/-- Midnight beginning the next calendar day. -/
def nextLocalMidnight (t : CivilTime) : CivilTime :=
  { date := succDay t.date, hour := 0, minute := 0, second := 0 }

/-- Midnight of the first day of the next month. -/
def firstOfNextMonth (t : CivilTime) : CivilTime :=
  if t.date.month = 12 then
    { date := { year := t.date.year + 1, month := 1, day := 1 },
      hour := 0, minute := 0, second := 0 }
  else
    { date := { year := t.date.year, month := t.date.month + 1, day := 1 },
      hour := 0, minute := 0, second := 0 }

/-- Midnight of January first of the next year. -/
def jan1NextYear (t : CivilTime) : CivilTime :=
  { date := { year := t.date.year + 1, month := 1, day := 1 },
    hour := 0, minute := 0, second := 0 }

/-- Rollover instant the claim assigns to each unit. -/
def rolloverClaimInstant (u : minimumTimeUnit) (t : CivilTime) : CivilTime :=
  match u with
  | minimumTimeUnit.SECOND => nextSecondBoundary t
  | minimumTimeUnit.MINUTE => nextMinuteBoundary t
  | minimumTimeUnit.HOUR => nextHourBoundary t
  | minimumTimeUnit.DAY => nextLocalMidnight t
  | minimumTimeUnit.MONTH => firstOfNextMonth t
  | minimumTimeUnit.YEAR => jan1NextYear t

/-- Characters the placeholder tokens are made of; every Go time format
replacement consists of digits only, so replacements never introduce a
token character. -/
def tokenChar (c : Char) : Bool :=
  c = 'Y' || c = 'M' || c = 'D' || c = 'H' || c = 'm' || c = 'S'

/-- Number of token characters in a string. -/
def countTC (s : List Char) : Nat :=
  (s.filter tokenChar).length

/-! Helper lemmas. -/

theorem compareHeaderStep_eq (incoming : List (String × List String))
    (found : Bool) (kv : String × JsonValue) :
    compareHeaderStep incoming found kv = (found && headerClause incoming kv) := by
  cases kv with
  | mk k v =>
      cases v <;> simp [compareHeaderStep, headerClause]

theorem foldl_compareHeaderStep (incoming : List (String × List String)) :
    ∀ (l : List (String × JsonValue)) (b : Bool),
      l.foldl (compareHeaderStep incoming) b = (b && l.all (headerClause incoming))
  | [], b => by simp
  | kv :: rest, b => by
      simp only [List.foldl_cons, List.all_cons]
      rw [foldl_compareHeaderStep incoming rest (compareHeaderStep incoming b kv),
        compareHeaderStep_eq, Bool.and_assoc]

theorem compareHeaders_eq_all (mockHeaders : List (String × JsonValue))
    (incoming : List (String × List String)) :
    compareHeaders mockHeaders incoming = mockHeaders.all (headerClause incoming) := by
  rw [compareHeaders, foldl_compareHeaderStep, Bool.true_and]

theorem compareQueryParams_eq_all (mockQueryParams : List (String × JsonValue))
    (incomingQueries : List (String × List String)) :
    compareQueryParams mockQueryParams incomingQueries =
      mockQueryParams.all (headerClause incomingQueries) := by
  rw [compareQueryParams, foldl_compareHeaderStep, Bool.true_and]

theorem cleanResponseErrors_aux (f : ValidationError → Bool) :
    ∀ (l acc : List ValidationError),
      l.foldl (fun acc e => if f e then acc ++ [e] else acc) acc = acc ++ l.filter f
  | [], acc => by simp
  | e :: rest, acc => by
      by_cases hf : f e = true <;>
        simp [List.filter_cons, hf, cleanResponseErrors_aux f rest]

theorem cleanResponseErrors_eq_filter (validationErrors : List ValidationError) :
    cleanResponseErrors validationErrors =
      validationErrors.filter (fun e => !e.pathMissing) := by
  rw [cleanResponseErrors, cleanResponseErrors_aux]
  simp

theorem countTC_cons (c : Char) (l : List Char) :
    countTC (c :: l) = (if tokenChar c then 1 else 0) + countTC l := by
  by_cases h : tokenChar c <;>
    simp [countTC, List.filter_cons, h, Nat.add_comm]

theorem countTC_append (a b : List Char) :
    countTC (a ++ b) = countTC a + countTC b := by
  simp [countTC, List.filter_append]

theorem countTC_drop_le (l : List Char) (n : Nat) :
    countTC (l.drop n) ≤ countTC l :=
  List.Sublist.length_le (List.Sublist.filter _ (List.drop_sublist n l))

theorem replaceAll_countTC_le (pat rep : List Char) (hrep : countTC rep = 0) :
    ∀ s : List Char, countTC (replaceAll pat rep s) ≤ countTC s := by
  intro s
  induction s using replaceAll.induct pat rep with
  | case1 => simp [replaceAll]
  | case2 c rest hcond ih =>
      rw [replaceAll, if_pos hcond, countTC_append, hrep, Nat.zero_add]
      calc countTC (replaceAll pat rep (rest.drop (pat.length - 1)))
          ≤ countTC (rest.drop (pat.length - 1)) := ih
        _ ≤ countTC rest := countTC_drop_le rest (pat.length - 1)
        _ ≤ countTC (c :: rest) := by rw [countTC_cons]; omega
  | case3 c rest hcond ih =>
      rw [replaceAll, if_neg hcond, countTC_cons, countTC_cons]
      omega

theorem prefix_decomp (pat rest : List Char) (c : Char)
    (hpre : pat.isPrefixOf (c :: rest) = true) (hlen : 0 < pat.length) :
    c :: rest = pat ++ rest.drop (pat.length - 1) := by
  obtain ⟨t, ht⟩ := (List.isPrefixOf_iff_prefix.mp hpre)
  have hdrop : (pat ++ t).drop pat.length = t := List.drop_left pat t
  rw [ht] at hdrop
  obtain ⟨k, hk⟩ : ∃ k, pat.length = k + 1 :=
    ⟨pat.length - 1, by omega⟩
  rw [hk, List.drop_succ_cons] at hdrop
  have hk1 : pat.length - 1 = k := by omega
  rw [← ht, hk1, hdrop]

theorem replaceAll_countTC_lt (pat rep : List Char) (hrep : countTC rep = 0)
    (hpat1 : 1 ≤ countTC pat) (hpat0 : 0 < pat.length) :
    ∀ s : List Char, listContains s pat = true →
      countTC (replaceAll pat rep s) < countTC s := by
  intro s
  induction s using replaceAll.induct pat rep with
  | case1 =>
      intro hcont
      simp only [listContains, List.isEmpty_iff] at hcont
      rw [hcont] at hpat0
      simp at hpat0
  | case2 c rest hcond ih =>
      intro _
      rw [replaceAll, if_pos hcond, countTC_append, hrep, Nat.zero_add]
      have hpre : pat.isPrefixOf (c :: rest) = true := by
        have hcond2 := hcond
        simp only [Bool.and_eq_true] at hcond2
        exact hcond2.2
      have hdec := prefix_decomp pat rest c hpre hpat0
      have hsplit : countTC (c :: rest) =
          countTC pat + countTC (rest.drop (pat.length - 1)) := by
        rw [hdec]
        exact countTC_append _ _
      have hle := replaceAll_countTC_le pat rep hrep (rest.drop (pat.length - 1))
      omega
  | case3 c rest hcond ih =>
      intro hcont
      have hpre : pat.isPrefixOf (c :: rest) = false := by
        cases hb : pat.isPrefixOf (c :: rest) with
        | false => rfl
        | true =>
            exfalso
            exact hcond (by simp [hb, hpat0])
      have hcont2 : listContains rest pat = true := by
        simp only [listContains, hpre, Bool.false_or] at hcont
        exact hcont
      rw [replaceAll, if_neg hcond, countTC_cons, countTC_cons]
      have := ih hcont2
      omega

theorem addSeconds_small (y : Int) (mo d h2 mi2 s2 : Nat)
    (hlt : h2 * 3600 + mi2 * 60 + s2 < 86400) (n : Nat)
    (hn : h2 * 3600 + mi2 * 60 + s2 + n < 86400) :
    addSeconds ⟨⟨y, mo, d⟩, h2, mi2, s2⟩ n =
      ⟨⟨y, mo, d⟩, (h2 * 3600 + mi2 * 60 + s2 + n) / 3600,
        (h2 * 3600 + mi2 * 60 + s2 + n) % 3600 / 60,
        (h2 * 3600 + mi2 * 60 + s2 + n) % 60⟩ := by
  simp only [addSeconds]
  have hdiv : (h2 * 3600 + mi2 * 60 + s2 + n) / 86400 = 0 := by omega
  have hmod : (h2 * 3600 + mi2 * 60 + s2 + n) % 86400 =
      h2 * 3600 + mi2 * 60 + s2 + n := by omega
  rw [hdiv, hmod]
  simp only [addDays]

theorem calculateNextRollover_eq_claim (u : minimumTimeUnit) (t : CivilTime)
    (hvalid : validCivil t = true) :
    calculateNextRollover u t = rolloverClaimInstant u t := by
  obtain ⟨⟨y, mo, d⟩, h, mi, s⟩ := t
  simp only [validCivil, validDate, Bool.and_eq_true, decide_eq_true_eq] at hvalid
  obtain ⟨⟨⟨hdate, hh⟩, hmi⟩, hs⟩ := hvalid
  cases u with
  | SECOND =>
      simp only [calculateNextRollover, truncSecond, rolloverClaimInstant,
        nextSecondBoundary]
      by_cases h1 : s < 59
      · rw [if_pos h1, addSeconds_small y mo d h mi s (by omega) 1 (by omega)]
        simp only [CivilTime.mk.injEq]
        refine ⟨trivial, by omega, by omega, by omega⟩
      · rw [if_neg h1]
        by_cases h2 : mi < 59
        · rw [if_pos h2, addSeconds_small y mo d h mi s (by omega) 1 (by omega)]
          simp only [CivilTime.mk.injEq]
          refine ⟨trivial, by omega, by omega, by omega⟩
        · rw [if_neg h2]
          by_cases h3 : h < 23
          · rw [if_pos h3, addSeconds_small y mo d h mi s (by omega) 1 (by omega)]
            simp only [CivilTime.mk.injEq]
            refine ⟨trivial, by omega, by omega, by omega⟩
          · rw [if_neg h3]
            have hh23 : h = 23 := by omega
            have hmi59 : mi = 59 := by omega
            have hs59 : s = 59 := by omega
            subst hh23 hmi59 hs59
            simp only [addSeconds]
            norm_num
            simp only [addDays]
  | MINUTE =>
      simp only [calculateNextRollover, truncMinute, rolloverClaimInstant,
        nextMinuteBoundary]
      by_cases h2 : mi < 59
      · rw [if_pos h2, addSeconds_small y mo d h mi 0 (by omega) 60 (by omega)]
        simp only [CivilTime.mk.injEq]
        refine ⟨trivial, by omega, by omega, by omega⟩
      · rw [if_neg h2]
        by_cases h3 : h < 23
        · rw [if_pos h3, addSeconds_small y mo d h mi 0 (by omega) 60 (by omega)]
          simp only [CivilTime.mk.injEq]
          refine ⟨trivial, by omega, by omega, by omega⟩
        · rw [if_neg h3]
          have hh23 : h = 23 := by omega
          have hmi59 : mi = 59 := by omega
          subst hh23 hmi59
          simp only [addSeconds]
          norm_num
          simp only [addDays]
  | HOUR =>
      simp only [calculateNextRollover, truncHour, rolloverClaimInstant,
        nextHourBoundary]
      by_cases h3 : h < 23
      · rw [if_pos h3, addSeconds_small y mo d h 0 0 (by omega) 3600 (by omega)]
        simp only [CivilTime.mk.injEq]
        refine ⟨trivial, by omega, by omega, by omega⟩
      · rw [if_neg h3]
        have hh23 : h = 23 := by omega
        subst hh23
        simp only [addSeconds]
        norm_num
        simp only [addDays]
  | DAY =>
      simp only [calculateNextRollover, rolloverClaimInstant, nextLocalMidnight,
        addSeconds]
      norm_num
      simp only [addDays]
  | MONTH => rfl
  | YEAR => rfl

theorem scanMatchesAux_ne_nil :
    ∀ (ms : List timeUnitMapping) (f : List Char),
      (∃ m ∈ ms, listContains f m.input = true) → scanMatchesAux ms f ≠ []
  | [], f, hex => by
      obtain ⟨m, hm, _⟩ := hex
      exact absurd hm (List.not_mem_nil m)
  | m0 :: ms, f, hex => by
      by_cases hc : listContains f m0.input = true
      · simp [scanMatchesAux, hc]
      · obtain ⟨m, hm, hcm⟩ := hex
        rcases List.mem_cons.mp hm with rfl | hm2
        · exact absurd hcm hc
        · simp only [scanMatchesAux, if_neg hc]
          exact scanMatchesAux_ne_nil ms f ⟨m, hm2, hcm⟩

theorem scanFold_of_matches_nil :
    ∀ (ms : List timeUnitMapping) (f : List Char) (u : minimumTimeUnit),
      scanMatchesAux ms f = [] → scanFold ms f u = (f, u)
  | [], _, _, _ => rfl
  | m0 :: ms, f, u, h => by
      by_cases hc : listContains f m0.input = true
      · simp [scanMatchesAux, hc] at h
      · simp only [scanMatchesAux, if_neg hc] at h
        simp only [scanFold, if_neg hc]
        exact scanFold_of_matches_nil ms f u h

theorem scanFold_snd_eq_getLast :
    ∀ (ms : List timeUnitMapping) (f : List Char) (u : minimumTimeUnit),
      scanMatchesAux ms f ≠ [] →
      ∃ mlast, (scanMatchesAux ms f).getLast? = some mlast
        ∧ (scanFold ms f u).2 = mlast.unit
  | [], _, _, h => absurd rfl h
  | m0 :: ms, f, u, h => by
      by_cases hc : listContains f m0.input = true
      · simp only [scanMatchesAux, if_pos hc]
        simp only [scanFold, if_pos hc]
        by_cases htail : scanMatchesAux ms (replaceAll m0.input m0.goFormat f) = []
        · rw [htail]
          refine ⟨m0, by simp, ?_⟩
          rw [scanFold_of_matches_nil ms _ m0.unit htail]
        · obtain ⟨mlast, h1, h2⟩ :=
            scanFold_snd_eq_getLast ms (replaceAll m0.input m0.goFormat f) m0.unit htail
          refine ⟨mlast, ?_, h2⟩
          rcases hm : scanMatchesAux ms (replaceAll m0.input m0.goFormat f) with _ | ⟨t, ts⟩
          · exact absurd hm htail
          · rw [hm] at h1
            rw [List.getLast?_cons_cons]
            exact h1
      · simp only [scanMatchesAux, if_neg hc]
        simp only [scanFold, if_neg hc]
        exact scanFold_snd_eq_getLast ms f u (by
          intro hnil
          exact h (by simpa [scanMatchesAux, if_neg hc] using hnil))

theorem scanMatchesAux_sublist :
    ∀ (ms : List timeUnitMapping) (f : List Char),
      List.Sublist (scanMatchesAux ms f) ms
  | [], _ => List.Sublist.refl []
  | m0 :: ms, f => by
      by_cases hc : listContains f m0.input = true
      · simp only [scanMatchesAux, if_pos hc]
        exact List.Sublist.cons₂ m0 (scanMatchesAux_sublist ms _)
      · simp only [scanMatchesAux, if_neg hc]
        exact List.Sublist.cons m0 (scanMatchesAux_sublist ms f)

theorem getLast?_mem_of_eq {α : Type} :
    ∀ (l : List α) (a : α), l.getLast? = some a → a ∈ l
  | [], a, h => by simp at h
  | [x], a, h => by
      have hx : x = a := by simpa using h
      rw [← hx]
      simp
  | x :: x2 :: xs, a, h => by
      rw [List.getLast?_cons_cons] at h
      exact List.mem_cons_of_mem x (getLast?_mem_of_eq (x2 :: xs) a h)

theorem pairwise_last_min {α : Type} (R : α → α → Prop) :
    ∀ (l : List α), l.Pairwise R → ∀ (a : α), l.getLast? = some a →
      ∀ b ∈ l, b = a ∨ R b a
  | [], _, a, h => by simp at h
  | [x], _, a, h => by
      have hxa : x = a := by simpa using h
      intro b hb
      left
      rw [List.mem_singleton] at hb
      rw [hb, hxa]
  | x :: x2 :: xs, hp, a, h => by
      rw [List.getLast?_cons_cons] at h
      rcases List.pairwise_cons.mp hp with ⟨hx, hp2⟩
      intro b hb
      rcases List.mem_cons.mp hb with rfl | hb2
      · exact Or.inr (hx a (getLast?_mem_of_eq (x2 :: xs) a h))
      · exact pairwise_last_min R (x2 :: xs) hp2 a h b hb2

theorem scanFold_fst_le :
    ∀ (ms : List timeUnitMapping) (f : List Char) (u : minimumTimeUnit),
      (∀ m ∈ ms, countTC m.goFormat = 0) →
      countTC (scanFold ms f u).1 ≤ countTC f
  | [], _, _, _ => le_refl _
  | m0 :: ms, f, u, hg => by
      by_cases hc : listContains f m0.input = true
      · simp only [scanFold, if_pos hc]
        calc countTC (scanFold ms (replaceAll m0.input m0.goFormat f) m0.unit).1
            ≤ countTC (replaceAll m0.input m0.goFormat f) :=
              scanFold_fst_le ms _ m0.unit (fun m hm => hg m (List.mem_cons_of_mem m0 hm))
          _ ≤ countTC f :=
              replaceAll_countTC_le _ _ (hg m0 (List.mem_cons_self m0 ms)) f
      · simp only [scanFold, if_neg hc]
        exact scanFold_fst_le ms f u (fun m hm => hg m (List.mem_cons_of_mem m0 hm))

theorem scanFold_fst_lt :
    ∀ (ms : List timeUnitMapping) (f : List Char) (u : minimumTimeUnit),
      (∀ m ∈ ms, countTC m.goFormat = 0 ∧ 1 ≤ countTC m.input ∧ 0 < m.input.length) →
      scanMatchesAux ms f ≠ [] →
      countTC (scanFold ms f u).1 < countTC f
  | [], _, _, _, h => absurd rfl h
  | m0 :: ms, f, u, hg, h => by
      by_cases hc : listContains f m0.input = true
      · simp only [scanFold, if_pos hc]
        obtain ⟨hg0, hg1, hg2⟩ := hg m0 (List.mem_cons_self m0 ms)
        have hlt := replaceAll_countTC_lt m0.input m0.goFormat hg0 hg1 hg2 f hc
        have hle := scanFold_fst_le ms (replaceAll m0.input m0.goFormat f) m0.unit
          (fun m hm => (hg m (List.mem_cons_of_mem m0 hm)).1)
        omega
      · simp only [scanFold, if_neg hc]
        simp only [scanMatchesAux, if_neg hc] at h
        exact scanFold_fst_lt ms f u (fun m hm => hg m (List.mem_cons_of_mem m0 hm)) h

theorem sepJoin_append :
    ∀ (vs ws : List (List Char)), vs ≠ [] → ws ≠ [] →
      sepJoin (vs ++ ws) = sepJoin vs ++ sepChars ++ sepJoin ws
  | [], _, hvs, _ => absurd rfl hvs
  | [v], ws, _, hws => by
      cases ws with
      | nil => exact absurd rfl hws
      | cons w ws' => rfl
  | v :: v2 :: vs', ws, _, hws => by
      have ih := sepJoin_append (v2 :: vs') ws (by simp) hws
      show sepJoin (v :: ((v2 :: vs') ++ ws)) = _
      have hcons : (v2 :: vs') ++ ws = v2 :: (vs' ++ ws) := rfl
      rw [hcons]
      show v ++ sepChars ++ sepJoin (v2 :: (vs' ++ ws)) = _
      rw [← hcons, ih]
      show _ = (v ++ sepChars ++ sepJoin (v2 :: vs')) ++ sepChars ++ sepJoin ws
      simp [List.append_assoc]

theorem sepJoin_ne_nil (v : List Char) (vs : List (List Char)) (hv : v ≠ []) :
    sepJoin (v :: vs) ≠ [] := by
  cases vs with
  | nil => exact hv
  | cons w ws =>
      show v ++ sepChars ++ sepJoin (w :: ws) ≠ []
      simp [hv]

theorem sepJoin_length_ge (vs : List (List Char)) (hvs : vs ≠ [])
    (h2 : ∀ v ∈ vs, 2 ≤ v.length) : 2 ≤ (sepJoin vs).length := by
  cases vs with
  | nil => exact absurd rfl hvs
  | cons v ws =>
      have hv := h2 v (List.mem_cons_self v ws)
      cases ws with
      | nil => exact hv
      | cons w ws' =>
          show 2 ≤ (v ++ sepChars ++ sepJoin (w :: ws')).length
          simp only [List.length_append]
          omega

theorem jsonArrayRender_dropLast (vs : List (List Char)) :
    (jsonArrayRender vs).dropLast = '[' :: sepJoin vs := by
  show ('[' :: (sepJoin vs ++ [']'])).dropLast = _
  have hsplit : '[' :: (sepJoin vs ++ [']']) = ('[' :: sepJoin vs) ++ [']'] := by simp
  rw [hsplit, List.dropLast_concat]

theorem jsonArrayRender_length (vs : List (List Char)) :
    (jsonArrayRender vs).length = (sepJoin vs).length + 2 := by
  simp [jsonArrayRender]

theorem appendBatch_render (vs batch : List (List Char))
    (hvs : ∀ v ∈ vs, v ≠ []) (hb : batch ≠ []) :
    appendBatch (jsonArrayRender vs) batch = jsonArrayRender (vs ++ batch) := by
  cases vs with
  | nil =>
      have hc : ¬ (2 < (jsonArrayRender ([] : List (List Char))).length) := by
        rw [jsonArrayRender_length]
        show ¬ (2 < (sepJoin []).length + 2)
        simp [sepJoin]
      simp only [appendBatch, if_neg hc, jsonArrayRender_dropLast]
      show ('[' :: sepJoin []) ++ sepJoin batch ++ [']'] = jsonArrayRender batch
      show ('[' :: ([] : List Char)) ++ sepJoin batch ++ [']'] = jsonArrayRender batch
      simp [jsonArrayRender]
  | cons v vs' =>
      have hne := sepJoin_ne_nil v vs' (hvs v (List.mem_cons_self v vs'))
      have hpos : 0 < (sepJoin (v :: vs')).length := List.length_pos.mpr hne
      have hc : 2 < (jsonArrayRender (v :: vs')).length := by
        rw [jsonArrayRender_length]
        omega
      have hj := sepJoin_append (v :: vs') batch (by simp) hb
      simp only [List.cons_append] at hj
      simp only [appendBatch, if_pos hc, jsonArrayRender_dropLast]
      simp only [List.cons_append, jsonArrayRender, hj, List.append_assoc]

theorem foldl_appendBatch_render :
    ∀ (batches : List (List (List Char))) (vs : List (List Char)),
      (∀ v ∈ vs, v ≠ []) →
      (∀ b ∈ batches, b ≠ []) →
      (∀ b ∈ batches, ∀ v ∈ b, v ≠ []) →
      batches.foldl appendBatch (jsonArrayRender vs) = jsonArrayRender (vs ++ batches.flatten)
  | [], vs, _, _, _ => by simp
  | b :: bs, vs, hvs, hbne, hbv => by
      rw [List.foldl_cons,
        appendBatch_render vs b hvs (hbne b (List.mem_cons_self b bs)),
        foldl_appendBatch_render bs (vs ++ b)
          (by
            intro v hv
            rcases List.mem_append.mp hv with hv1 | hv2
            · exact hvs v hv1
            · exact hbv b (List.mem_cons_self b bs) v hv2)
          (fun b2 hb2 => hbne b2 (List.mem_cons_of_mem b hb2))
          (fun b2 hb2 => hbv b2 (List.mem_cons_of_mem b hb2))]
      simp [List.append_assoc]

/-! Claim theorems. -/

/-- C1, counterexample: a mock whose header map holds a value of an
unsupported dynamic type (here a number) does match a request, because
the type switch of compareHeaders skips such entries instead of failing
the match; the claim says such a mock never matches any request. -/
theorem headerUnsupportedTypeStillMatches :
    isRequestMatch
      { host := "", method := "GET", urlPath := "",
        header := some [("X-Count", JsonValue.num 5)],
        queryParams := none, body := none }
      { host := "api.example.com", method := "GET", urlPath := "/pets",
        headers := [], queryParams := [], body := "", bodyJson := none }
      = some true := by
  rfl

/-- C1, amended: for string and array mock values the matcher requires
the stated subset relations against the incoming header or query values,
while an entry of any other dynamic type is skipped and imposes no
constraint; the whole map matches exactly when every entry satisfies its
clause. -/
theorem headerAndQuerySelectorSemantics (mockHeaders mockQueryParams : List (String × JsonValue))
    (hs qs : List (String × List String)) :
    compareHeaders mockHeaders hs = mockHeaders.all (headerClause hs)
    ∧ compareQueryParams mockQueryParams qs = mockQueryParams.all (headerClause qs) :=
  ⟨compareHeaders_eq_all mockHeaders hs, compareQueryParams_eq_all mockQueryParams qs⟩

/-- C2: ValidateResponse removes every path-missing error from the batch
recorded on the transaction, from the batches pushed onto the streamer
channel and from the broadcast; the streamer receives the cleaned batch
exactly when it is non-empty; and the caller receives the full unfiltered
error list. -/
theorem validateResponseFiltersPathMissing (validationErrors : List ValidationError) :
    (validateResponseRecord validationErrors).returned = validationErrors
    ∧ (∀ batch, (validateResponseRecord validationErrors).storedValidation = some batch →
        ∀ e ∈ batch, e.pathMissing = false)
    ∧ (∀ batch ∈ (validateResponseRecord validationErrors).streamedBatches,
        ∀ e ∈ batch, e.pathMissing = false)
    ∧ (∀ errs, (validateResponseRecord validationErrors).broadcast =
          ResponseBroadcast.responseValidationErrors errs →
        ∀ e ∈ errs, e.pathMissing = false)
    ∧ (validateResponseRecord validationErrors).streamedBatches =
        (if validationErrors.filter (fun e => !e.pathMissing) = [] then []
         else [validationErrors.filter (fun e => !e.pathMissing)])
    ∧ (validateResponseRecord validationErrors).storedValidation =
        (if validationErrors.filter (fun e => !e.pathMissing) = [] then none
         else some (validationErrors.filter (fun e => !e.pathMissing))) := by
  have hclean := cleanResponseErrors_eq_filter validationErrors
  have hmem : ∀ e ∈ validationErrors.filter (fun e => !e.pathMissing),
      e.pathMissing = false := by
    intro e he
    simpa using List.of_mem_filter he
  rcases hfil : validationErrors.filter (fun e => !e.pathMissing) with _ | ⟨c0, crest⟩
  · have hcc : cleanResponseErrors validationErrors = [] := by rw [hclean, hfil]
    refine ⟨rfl, ?_, ?_, ?_, ?_, ?_⟩
    · intro batch hb
      simp [validateResponseRecord, hcc] at hb
    · intro batch hb
      simp [validateResponseRecord, hcc] at hb
    · intro errs hb
      simp [validateResponseRecord, hcc] at hb
    · rw [hfil]
      simp [validateResponseRecord, hcc]
    · rw [hfil]
      simp [validateResponseRecord, hcc]
  · have hcc : cleanResponseErrors validationErrors = c0 :: crest := by rw [hclean, hfil]
    have hmem2 : ∀ e ∈ (c0 :: crest), e.pathMissing = false := by
      intro e he
      exact hmem e (hfil ▸ he)
    refine ⟨rfl, ?_, ?_, ?_, ?_, ?_⟩
    · intro batch hb e he
      simp [validateResponseRecord, hcc] at hb
      exact hmem2 e (hb ▸ he)
    · intro batch hb e he
      simp [validateResponseRecord, hcc] at hb
      exact hmem2 e (hb ▸ he)
    · intro errs hb e he
      simp [validateResponseRecord, hcc] at hb
      exact hmem2 e (hb ▸ he)
    · rw [hfil]
      simp [validateResponseRecord, hcc]
    · rw [hfil]
      simp [validateResponseRecord, hcc]

/-- C3: starting from a freshly created report file (the two bytes of an
empty JSON array), every prefix of the consumed batch sequence leaves the
file as the well-formed JSON array of all violations written so far; and
at every append the separator condition of the source (stat size
exceeding two) agrees with the condition of the claim (remaining size
after truncation exceeding two), because reachable file sizes are two or
at least four.  Batches are non-empty (the producers only send non-empty
cleaned batches) and serialized violations are JSON objects of at least
two bytes. -/
theorem reportFileStaysJsonArray (batches : List (List (List Char)))
    (hne : ∀ b ∈ batches, b ≠ [])
    (hlen2 : ∀ b ∈ batches, ∀ v ∈ b, 2 ≤ v.length) :
    newReportFileContent = jsonArrayRender []
    ∧ (∀ pre, List.IsPrefix pre batches →
        processBatches pre = jsonArrayRender pre.flatten)
    ∧ (∀ pre, List.IsPrefix pre batches →
        (2 < (processBatches pre).length ↔ 2 < (processBatches pre).length - 1)) := by
  have hallpre : ∀ pre, List.IsPrefix pre batches →
      processBatches pre = jsonArrayRender pre.flatten := by
    intro pre hpre
    have hsubset : ∀ b ∈ pre, b ∈ batches := fun b hb =>
      List.Sublist.subset (List.IsPrefix.sublist hpre) hb
    have h0 : processBatches pre = pre.foldl appendBatch (jsonArrayRender []) := rfl
    rw [h0, foldl_appendBatch_render pre [] (by intro v hv; simp at hv)
      (fun b hb => hne b (hsubset b hb))
      (fun b hb v hv => by
        have := hlen2 b (hsubset b hb) v hv
        intro hnil
        rw [hnil] at this
        simp at this)]
    simp
  refine ⟨rfl, hallpre, ?_⟩
  intro pre hpre
  rw [hallpre pre hpre]
  rw [jsonArrayRender_length]
  rcases hj : pre.flatten with _ | ⟨v0, vrest⟩
  · simp [sepJoin]
  · have hv2 : ∀ v ∈ pre.flatten, 2 ≤ v.length := by
      intro v hv
      obtain ⟨b, hb, hvb⟩ := List.mem_flatten.mp hv
      exact hlen2 b (List.Sublist.subset (List.IsPrefix.sublist hpre) hb) v hvb
    have hge : 2 ≤ (sepJoin pre.flatten).length := by
      apply sepJoin_length_ge pre.flatten (by rw [hj]; simp) hv2
    rw [hj] at hge
    omega

/-- C3, witness: two concrete batches of serialized violations leave the
file as the rendered JSON array of all three violations. -/
theorem reportFileStaysJsonArrayApplied :
    (∀ b ∈ [[("\x7b\"a\":1\x7d".toList)],
            [("\x7b\"b\":2\x7d".toList), ("\x7b\"c\":3\x7d".toList)]], b ≠ [])
    ∧ (∀ b ∈ [[("\x7b\"a\":1\x7d".toList)],
              [("\x7b\"b\":2\x7d".toList), ("\x7b\"c\":3\x7d".toList)]],
        ∀ v ∈ b, 2 ≤ v.length)
    ∧ processBatches [[("\x7b\"a\":1\x7d".toList)],
        [("\x7b\"b\":2\x7d".toList), ("\x7b\"c\":3\x7d".toList)]] =
      jsonArrayRender [("\x7b\"a\":1\x7d".toList), ("\x7b\"b\":2\x7d".toList),
        ("\x7b\"c\":3\x7d".toList)] := by
  refine ⟨by decide, by decide, ?_⟩
  have h := (reportFileStaysJsonArray
    [[("\x7b\"a\":1\x7d".toList)],
     [("\x7b\"b\":2\x7d".toList), ("\x7b\"c\":3\x7d".toList)]]
    (by decide) (by decide)).2.1 _ (List.prefix_refl _)
  exact h.trans (by rfl)

/-- C4: for a pattern containing at least one time token, the conversion
succeeds; the selected unit is the unit of the last token matched by the
fixed-order scan (YYYY, YY, MM, DD, HH, mm, SS) and is the smallest
(finest) among all matched tokens; and for every unit the computed next
rollover instant is the claimed boundary: next second, next minute, next
hour, next local midnight, first of next month, or January first of the
next year.  Go time is modelled over civil wall-clock times in a location
with a fixed whole-hour UTC offset and no daylight saving transitions. -/
theorem smallestTokenSelectsRolloverCadence :
    (∀ pattern : List Char,
      (∃ m ∈ timeUnitMappings, listContains pattern m.input = true) →
      ∃ fmt u, convertPatternToGoTimeFormat pattern = Except.ok (fmt, u)
        ∧ (∃ mlast, (scanMatches pattern).getLast? = some mlast ∧ u = mlast.unit)
        ∧ (∀ m ∈ scanMatches pattern, u.rank ≤ m.unit.rank))
    ∧ (∀ (u : minimumTimeUnit) (t : CivilTime), validCivil t = true →
        calculateNextRollover u t = rolloverClaimInstant u t) := by
  constructor
  · intro pattern hex
    have hmaps : ∀ m ∈ timeUnitMappings,
        countTC m.goFormat = 0 ∧ 1 ≤ countTC m.input ∧ 0 < m.input.length := by decide
    have hpw : timeUnitMappings.Pairwise
        (fun a b => minimumTimeUnit.rank b.unit ≤ minimumTimeUnit.rank a.unit) := by decide
    have hne : scanMatchesAux timeUnitMappings pattern ≠ [] :=
      scanMatchesAux_ne_nil timeUnitMappings pattern hex
    have hlt : countTC (scanFold timeUnitMappings pattern minimumTimeUnit.YEAR).1 <
        countTC pattern :=
      scanFold_fst_lt timeUnitMappings pattern minimumTimeUnit.YEAR hmaps hne
    have hneq : (scanFold timeUnitMappings pattern minimumTimeUnit.YEAR).1 ≠ pattern := by
      intro he
      rw [he] at hlt
      exact absurd hlt (lt_irrefl _)
    obtain ⟨mlast, hlast1, hlast2⟩ :=
      scanFold_snd_eq_getLast timeUnitMappings pattern minimumTimeUnit.YEAR hne
    refine ⟨(scanFold timeUnitMappings pattern minimumTimeUnit.YEAR).1,
      (scanFold timeUnitMappings pattern minimumTimeUnit.YEAR).2, ?_,
      ⟨mlast, hlast1, hlast2.symm ▸ rfl⟩, ?_⟩
    · simp only [convertPatternToGoTimeFormat]
      rw [if_neg hneq]
    · intro m hm
      have hsub := scanMatchesAux_sublist timeUnitMappings pattern
      have hpw2 := List.Pairwise.sublist hsub hpw
      rcases pairwise_last_min _ (scanMatchesAux timeUnitMappings pattern) hpw2
          mlast hlast1 m hm with heq | hR
      · rw [hlast2, heq]
      · rw [hlast2]
        exact hR
  · intro u t hv
    exact calculateNextRollover_eq_claim u t hv

/-- C4, witness: the pattern of the four tokens year, month, day and
hour converts successfully and the scan facts hold for it; a concrete
leap-February instant satisfies the rollover correspondence. -/
theorem smallestTokenSelectsRolloverCadenceApplied :
    (∃ m ∈ timeUnitMappings, listContains ("YYYY-MM-DD-HH".toList) m.input = true)
    ∧ (∃ fmt u, convertPatternToGoTimeFormat ("YYYY-MM-DD-HH".toList) = Except.ok (fmt, u)
        ∧ (∃ mlast, (scanMatches ("YYYY-MM-DD-HH".toList)).getLast? = some mlast
            ∧ u = mlast.unit)
        ∧ (∀ m ∈ scanMatches ("YYYY-MM-DD-HH".toList), u.rank ≤ m.unit.rank))
    ∧ validCivil ⟨⟨2024, 2, 28⟩, 23, 59, 59⟩ = true
    ∧ calculateNextRollover minimumTimeUnit.HOUR ⟨⟨2024, 2, 28⟩, 23, 59, 59⟩ =
        rolloverClaimInstant minimumTimeUnit.HOUR ⟨⟨2024, 2, 28⟩, 23, 59, 59⟩ := by
  refine ⟨by decide, ?_, by decide, ?_⟩
  · exact smallestTokenSelectsRolloverCadence.1 ("YYYY-MM-DD-HH".toList) (by decide)
  · exact smallestTokenSelectsRolloverCadence.2 minimumTimeUnit.HOUR
      ⟨⟨2024, 2, 28⟩, 23, 59, 59⟩ (by decide)

/-- C5, counterexample: a final response whose Set-Cookie header is
present with an empty first value is still overwritten with the first
captured cookie, because the source tests Header.Get for emptiness rather
than header absence; the claim says a response that already has a
Set-Cookie header is left unchanged. -/
theorem presentEmptyCookieOverwritten :
    (callAPICookieFix
        (capturedCookieHeaders
          [{ setCookie := ["s=1"] }, { setCookie := [""] }])
        { setCookie := [""] }) = { setCookie := ["s=1"] }
    ∧ ({ setCookie := [""] } : Response).setCookie ≠ []
    ∧ ({ setCookie := [""] } : Response) ≠ { setCookie := ["s=1"] } := by
  refine ⟨rfl, by simp, by simp⟩

/-- C5, amended: when the round-trip chain captured at least one cookie,
a final response on which Header.Get of Set-Cookie returns the empty
string (header absent, or present with an empty first value) receives the
first captured cookie, and a final response with a non-empty first
Set-Cookie value is left unchanged. -/
theorem cookiePromotionOnEmptyGet (chain : List Response) (resp : Response)
    (hcap : capturedCookieHeaders chain ≠ []) :
    (respCookieGet resp = "" →
      callAPICookieFix (capturedCookieHeaders chain) resp =
        { resp with setCookie := [(capturedCookieHeaders chain).headD ""] })
    ∧ (respCookieGet resp ≠ "" →
      callAPICookieFix (capturedCookieHeaders chain) resp = resp) := by
  cases hc : capturedCookieHeaders chain with
  | nil => exact absurd hc hcap
  | cons c0 cs =>
      constructor
      · intro hempty
        simp [callAPICookieFix, hempty]
      · intro hne
        simp only [callAPICookieFix]
        rw [if_neg (by simpa using hne)]

/-- C5, witness: a chain that captured one cookie promotes it onto a
response with no Set-Cookie header. -/
theorem cookiePromotionOnEmptyGetApplied :
    capturedCookieHeaders [({ setCookie := ["s=1"] } : Response)] ≠ []
    ∧ respCookieGet { setCookie := [] } = ""
    ∧ callAPICookieFix (capturedCookieHeaders [({ setCookie := ["s=1"] } : Response)])
        { setCookie := [] } = { setCookie := ["s=1"] } := by
  refine ⟨by simp [capturedCookieHeaders, respCookieGet], rfl, ?_⟩
  have h := (cookiePromotionOnEmptyGet [({ setCookie := ["s=1"] } : Response)]
    { setCookie := [] } (by simp [capturedCookieHeaders, respCookieGet])).1 rfl
  exact h.trans (by rfl)

/-- C6: the string mock body case requires byte-exact equality (here it
succeeds), but it consumes the incoming request body without restoring
it: after the comparison the readable body is empty although the request
arrived with a non-empty body, contradicting the restoration the claim
states. -/
theorem stringBodyMatchConsumesBody :
    (compareBody (JsonValue.str "hello")
        { host := "api.example.com", method := "POST", urlPath := "/a",
          headers := [], queryParams := [], body := "hello", bodyJson := none }).map
        (fun p => (p.1, p.2.body)) = some (true, "")
    ∧ ("hello" : String) ≠ "" := by
  exact ⟨rfl, by simp⟩

/-- C7, counterexample: a panic whose value is not a string makes the
recovery block itself panic at the type assertion to string, so the call
does not return normally; the claim says every panic value is converted
into a single ValidationError. -/
theorem nonStringPanicPropagates :
    validateRequestCall
      (ValidatorOutcome.panicked (PanicValue.nonStrVal "runtime error: invalid memory address")) =
      CallResult.panicked
        (PanicValue.nonStrVal ("interface conversion: runtime error: invalid memory address")) := by
  rfl

/-- C7, amended: a panic whose value is a string is recovered and becomes
a single ValidationError with the documented message, in both
ValidateRequest and ValidateResponse. -/
theorem stringPanicBecomesValidationError (s : String) :
    validateRequestCall (ValidatorOutcome.panicked (PanicValue.strVal s)) =
      CallResult.returned [{ message := "Error validating request: " ++ s, pathMissing := false }]
    ∧ validateResponseCall (ValidatorOutcome.panicked (PanicValue.strVal s)) =
      CallResult.returned [{ message := "Error validating response: " ++ s, pathMissing := false }] :=
  ⟨rfl, rfl⟩

/-- C8: ValidateRequest hands the model request itself to the transaction
store under the request id; the stored value is never the built
transaction, although the claim (and the spec) say the built transaction
is persisted. -/
theorem storeReceivesModelRequestNotTransaction :
    (validateRequestRecord { id := "req-1" } "rewritten yes" []).storePut =
      ("req-1", StoredValue.modelReq { id := "req-1" })
    ∧ ∀ t : HttpTransaction,
        (validateRequestRecord { id := "req-1" } "rewritten yes" []).storePut.2 ≠
          StoredValue.httpTxn t :=
  ⟨rfl, fun _ h => StoredValue.noConfusion h⟩

/-- C10: when a freshly created report file has size zero and the write
of the initial empty array fails, openReportFile still returns the opened
handle with a nil error, leaving the file with the partial content the
failed write produced rather than an empty JSON array. -/
theorem openReportFileWriteErrorIgnored (m : String) (written : List Char)
    (hbadwrite : written ≠ newReportFileContent) :
    openReportFileFinish none [] (some { message := m }) written =
      OpenReportOutcome.opened written
    ∧ openReportFileFinish none [] (some { message := m }) written ≠
        OpenReportOutcome.opened newReportFileContent := by
  constructor
  · rfl
  · intro h
    exact hbadwrite (by
      have h2 : OpenReportOutcome.opened written =
          OpenReportOutcome.opened newReportFileContent := h
      cases h2
      rfl)

theorem isRequestMatch_true_parts (mock : StaticMockDefinitionRequest) (incoming : Request)
    (h : isRequestMatch mock incoming = some true) :
    (mock.host != "" && !stringCompare mock.host incoming.host) = false
    ∧ (incoming.method != mock.method) = false
    ∧ (mock.urlPath != "" && !stringCompare mock.urlPath incoming.urlPath) = false
    ∧ headerGateFails mock incoming = false
    ∧ queryGateFails mock incoming = false
    ∧ bodyGate mock incoming = some true := by
  unfold isRequestMatch at h
  split at h
  · exact absurd h (by simp)
  · split at h
    · exact absurd h (by simp)
    · split at h
      · exact absurd h (by simp)
      · split at h
        · exact absurd h (by simp)
        · split at h
          · exact absurd h (by simp)
          · rename_i h1 h2 h3 h4 h5
            exact ⟨by simpa using h1, by simpa using h2, by simpa using h3,
              by simpa using h4, by simpa using h5, h⟩

theorem isRequestMatch_true_of (mock : StaticMockDefinitionRequest) (incoming : Request)
    (h1 : (mock.host != "" && !stringCompare mock.host incoming.host) = false)
    (h2 : (incoming.method != mock.method) = false)
    (h3 : (mock.urlPath != "" && !stringCompare mock.urlPath incoming.urlPath) = false)
    (h4 : headerGateFails mock incoming = false)
    (h5 : queryGateFails mock incoming = false)
    (h6 : bodyGate mock incoming = some true) :
    isRequestMatch mock incoming = some true := by
  unfold isRequestMatch
  rw [h1, h2, h3, h4, h5]
  simpa using h6

/-- C9: a mock that matches a request still matches it after any one
selector field is removed (host or path set to empty, or header map,
query map or body set to absent): each selector contributes an
independent guard that removal simply disables. -/
theorem matcherMonotoneUnderSelectorRemoval (mock : StaticMockDefinitionRequest)
    (incoming : Request) (h : isRequestMatch mock incoming = some true) :
    isRequestMatch { mock with host := "" } incoming = some true
    ∧ isRequestMatch { mock with urlPath := "" } incoming = some true
    ∧ isRequestMatch { mock with header := none } incoming = some true
    ∧ isRequestMatch { mock with queryParams := none } incoming = some true
    ∧ isRequestMatch { mock with body := none } incoming = some true := by
  obtain ⟨h1, h2, h3, h4, h5, h6⟩ := isRequestMatch_true_parts mock incoming h
  refine ⟨?_, ?_, ?_, ?_, ?_⟩
  · exact isRequestMatch_true_of _ _ (by simp) h2 h3 h4 h5 h6
  · exact isRequestMatch_true_of _ _ h1 h2 (by simp) h4 h5 h6
  · exact isRequestMatch_true_of _ _ h1 h2 h3 rfl h5 h6
  · exact isRequestMatch_true_of _ _ h1 h2 h3 h4 rfl h6
  · exact isRequestMatch_true_of _ _ h1 h2 h3 h4 h5 rfl

/-- C9, witness: a mock with every selector present matches a concrete
request, and so do the five mocks obtained by removing one selector. -/
theorem matcherMonotoneUnderSelectorRemovalApplied :
    isRequestMatch
      { host := "API.example.com", method := "POST", urlPath := "/Pets",
        header := some [("Accept", JsonValue.str "application/json")],
        queryParams := some [("tag", JsonValue.arr [JsonValue.str "dog"])],
        body := some (JsonValue.obj [("x", JsonValue.num 1)]) }
      { host := "api.example.com", method := "POST", urlPath := "/pets",
        headers := [("Accept", ["application/json"]),
                    ("Content-Type", ["application/json"])],
        queryParams := [("tag", ["dog"])],
        body := "\x7b\"x\": 1, \"y\": 2\x7d",
        bodyJson := some (JsonValue.obj [("x", JsonValue.num 1), ("y", JsonValue.num 2)]) }
      = some true
    ∧ isRequestMatch
      { host := "API.example.com", method := "POST", urlPath := "/Pets",
        header := some [("Accept", JsonValue.str "application/json")],
        queryParams := some [("tag", JsonValue.arr [JsonValue.str "dog"])],
        body := none }
      { host := "api.example.com", method := "POST", urlPath := "/pets",
        headers := [("Accept", ["application/json"]),
                    ("Content-Type", ["application/json"])],
        queryParams := [("tag", ["dog"])],
        body := "\x7b\"x\": 1, \"y\": 2\x7d",
        bodyJson := some (JsonValue.obj [("x", JsonValue.num 1), ("y", JsonValue.num 2)]) }
      = some true := by
  have hA : isRequestMatch
      { host := "API.example.com", method := "POST", urlPath := "/Pets",
        header := some [("Accept", JsonValue.str "application/json")],
        queryParams := some [("tag", JsonValue.arr [JsonValue.str "dog"])],
        body := some (JsonValue.obj [("x", JsonValue.num 1)]) }
      { host := "api.example.com", method := "POST", urlPath := "/pets",
        headers := [("Accept", ["application/json"]),
                    ("Content-Type", ["application/json"])],
        queryParams := [("tag", ["dog"])],
        body := "\x7b\"x\": 1, \"y\": 2\x7d",
        bodyJson := some (JsonValue.obj [("x", JsonValue.num 1), ("y", JsonValue.num 2)]) }
      = some true := by
    simp [isRequestMatch, headerGateFails, queryGateFails, bodyGate, compareBody,
      compareJsonBody, getBodyFromHttpRequest, compareHeaders, compareQueryParams,
      compareHeaderStep, headerIndex, headerGet, transStrArrToInterfaceArr,
      stringCompare, lowerChar, isSubset, subsetArr, hasRelated, subsetObj,
      fieldSubset, List.lookup]
  exact ⟨hA, (matcherMonotoneUnderSelectorRemoval
    { host := "API.example.com", method := "POST", urlPath := "/Pets",
      header := some [("Accept", JsonValue.str "application/json")],
      queryParams := some [("tag", JsonValue.arr [JsonValue.str "dog"])],
      body := some (JsonValue.obj [("x", JsonValue.num 1)]) } _ hA).2.2.2.2⟩

/-- C10, witness: a write that only produced the opening bracket is
reported as a successful open. -/
theorem openReportFileWriteErrorIgnoredApplied :
    ("[".toList ≠ newReportFileContent)
    ∧ openReportFileFinish none [] (some { message := "disk full" }) "[".toList =
        OpenReportOutcome.opened "[".toList :=
  ⟨by decide, (openReportFileWriteErrorIgnored "disk full" "[".toList (by decide)).1⟩

end Wiretap
